import Mathlib

/-!
Shallow embedding of the three Python scripts in
`scripts/telegram_simplifier_plus.py`, `scripts/telegram_filter_noise.py` and
`scripts/chunk_splitter_with_dates.py`, together with theorems about the
embedded definitions.  Strings are modelled at the codepoint level
(Python `len` counts codepoints, as does `String.length`); integer
parsing of the ASCII fragment of Python `int` / `str.isdigit` is modelled
explicitly, and Python exceptions are modelled with `Option` (a `none`
result is an uncaught exception aborting the batch).
-/

set_option maxHeartbeats 4000000

namespace Telegram

/-- ASCII whitespace stripped by Python `str.strip()` with no argument. -/
def py_space (c : Char) : Bool :=
  c = ' ' || c = '\t' || c = '\n' || c = '\r' || c = '\x0b' || c = '\x0c'

/-- `str.strip()` on the codepoint list: drop whitespace from both ends. -/
def strip_chars (l : List Char) : List Char :=
  ((l.dropWhile py_space).reverse.dropWhile py_space).reverse

/-- Python `text.strip()`. -/
def pyStrip (s : String) : String := ⟨strip_chars s.data⟩

/-- Python `text.lower()` (ASCII fragment). -/
def pyLower (s : String) : String := ⟨s.data.map Char.toLower⟩

/-- Value of a list of ASCII digit characters read in base 10. -/
def digitsVal (l : List Char) : Nat :=
  l.foldl (fun a c => a * 10 + (c.toNat - 48)) 0

/-- Python `int(s)` on strings: optional surrounding whitespace, optional
sign, then one or more ASCII digits; anything else raises `ValueError`,
modelled as `none`. -/
def pyInt (s : String) : Option Int :=
  match strip_chars s.data with
  | '-' :: ds => if ds ≠ [] ∧ ds.all Char.isDigit then some (-(digitsVal ds : Int)) else none
  | '+' :: ds => if ds ≠ [] ∧ ds.all Char.isDigit then some (digitsVal ds : Int) else none
  | ds => if ds ≠ [] ∧ ds.all Char.isDigit then some (digitsVal ds : Int) else none

/-- Python `s.isdigit()` (ASCII fragment): nonempty and all digits. -/
def pyIsDigit (s : String) : Bool :=
  !s.data.isEmpty && s.data.all Char.isDigit

/-- Python `'|'.join`-style joining: `sep.join(l)` / `'\n'.join(l)`. -/
def pyJoin (sep : String) : List String → String
  | [] => ""
  | [a] => a
  | a :: b :: rest => a ++ sep ++ pyJoin sep (b :: rest)

/-- A simplified message record as built by `simplify_messages`: the dict
`{'id', 'date_unixtime', 'from', 'from_id', 'text'}`.  All fields are the
string values carried along by the scripts (a missing JSON field defaults
to the empty string, matching `msg.get(key, '')`). -/
structure Msg where
  id : String
  date_unixtime : String
  «from» : String
  from_id : String
  text : String
deriving DecidableEq, Inhabited

/-- The merge condition of `consolidate_messages` (telegram_simplifier_plus.py
lines 132-138): same `from_id`, timestamp delta within `time_window`, and
both texts within `max_length`.  Python evaluates `int(...)` only after the
`from_id` comparison succeeds (`and` short-circuits); a failing conversion
raises, modelled as `none`. -/
def extend_cond (time_window max_length : Int) (last_msg current_msg : Msg) : Option Bool :=
  if current_msg.from_id = last_msg.from_id then
    match pyInt current_msg.date_unixtime, pyInt last_msg.date_unixtime with
    | some tc, some tl =>
        some (decide (tc - tl ≤ time_window ∧
          (current_msg.text.length : Int) ≤ max_length ∧
          (last_msg.text.length : Int) ≤ max_length))
    | _, _ => none
  else some false

/-- Emission of a closed run (telegram_simplifier_plus.py lines 144-156):
a run of size > 1 becomes one combined record taking `id`/`from`/`from_id`
from the first element, `date_unixtime` from the last element, and the
double-newline join of the texts; a run of size 1 is emitted unchanged. -/
def emitGroup (g : List Msg) : Msg :=
  if 1 < g.length then
    { id := g.headI.id
      date_unixtime := g.getLastI.date_unixtime
      «from» := g.headI.«from»
      from_id := g.headI.from_id
      text := pyJoin "\n\n" (g.map Msg.text) }
  else g.headI

/-- The grouping computed by the `consolidate_messages` loop: the current
run `group` (always nonempty) is extended while `extend_cond` holds against
its last element, otherwise it is closed and a fresh run starts. -/
def runsGo (time_window max_length : Int) (group : List Msg) :
    List Msg → Option (List (List Msg))
  | [] => some [group]
  | m :: rest =>
    match extend_cond time_window max_length group.getLastI m with
    | none => none
    | some true => runsGo time_window max_length (group ++ [m]) rest
    | some false =>
        Option.map (fun rs => group :: rs) (runsGo time_window max_length [m] rest)

/-- The `consolidate_messages` loop body, emitting each closed run. -/
def consolidateGo (time_window max_length : Int) (group : List Msg) :
    List Msg → Option (List Msg)
  | [] => some [emitGroup group]
  | m :: rest =>
    match extend_cond time_window max_length group.getLastI m with
    | none => none
    | some true => consolidateGo time_window max_length (group ++ [m]) rest
    | some false =>
        Option.map (fun out => emitGroup group :: out)
          (consolidateGo time_window max_length [m] rest)

/-- `consolidate_messages(messages, time_window, max_length)`
(telegram_simplifier_plus.py lines 108-174). -/
def consolidate_messages (messages : List Msg) (time_window max_length : Int) :
    Option (List Msg) :=
  match messages with
  | [] => some []
  | m :: rest => consolidateGo time_window max_length [m] rest

/-- The run decomposition underlying `consolidate_messages`. -/
def runsOf (messages : List Msg) (time_window max_length : Int) :
    Option (List (List Msg)) :=
  match messages with
  | [] => some []
  | m :: rest => runsGo time_window max_length [m] rest

end Telegram

namespace Telegram

lemma consolidateGo_eq_runsGo (time_window max_length : Int) :
    ∀ (rest group : List Msg),
      consolidateGo time_window max_length group rest =
        Option.map (List.map emitGroup) (runsGo time_window max_length group rest)
  | [], group => rfl
  | m :: rest, group => by
    simp only [consolidateGo, runsGo]
    cases h : extend_cond time_window max_length group.getLastI m with
    | none => rfl
    | some b =>
      cases b with
      | true => exact consolidateGo_eq_runsGo time_window max_length rest (group ++ [m])
      | false =>
        rw [consolidateGo_eq_runsGo time_window max_length rest [m]]
        cases runsGo time_window max_length [m] rest <;> rfl

lemma runsGo_flatten (time_window max_length : Int) :
    ∀ (rest group : List Msg) (rs : List (List Msg)),
      runsGo time_window max_length group rest = some rs → rs.flatten = group ++ rest
  | [], group, rs => by
    intro h
    simp only [runsGo, Option.some.injEq] at h
    subst h
    simp
  | m :: rest, group, rs => by
    intro h
    simp only [runsGo] at h
    cases hE : extend_cond time_window max_length group.getLastI m with
    | none => rw [hE] at h; exact absurd h (by simp)
    | some b =>
      rw [hE] at h
      cases b with
      | true =>
        have := runsGo_flatten time_window max_length rest (group ++ [m]) rs h
        simpa using this
      | false =>
        cases hR : runsGo time_window max_length [m] rest with
        | none => rw [hR] at h; exact absurd h (by simp)
        | some rs' =>
          rw [hR] at h
          have h2 : group :: rs' = rs := by simpa using h
          subst h2
          have := runsGo_flatten time_window max_length rest [m] rs' hR
          simp [this]

lemma runsGo_ne_nil (time_window max_length : Int) :
    ∀ (rest group : List Msg) (rs : List (List Msg)),
      group ≠ [] → runsGo time_window max_length group rest = some rs →
      ∀ g ∈ rs, g ≠ []
  | [], group, rs => by
    intro hg h
    simp only [runsGo, Option.some.injEq] at h
    subst h
    simpa using hg
  | m :: rest, group, rs => by
    intro hg h
    simp only [runsGo] at h
    cases hE : extend_cond time_window max_length group.getLastI m with
    | none => rw [hE] at h; exact absurd h (by simp)
    | some b =>
      rw [hE] at h
      cases b with
      | true =>
        exact runsGo_ne_nil time_window max_length rest (group ++ [m]) rs (by simp) h
      | false =>
        cases hR : runsGo time_window max_length [m] rest with
        | none => rw [hR] at h; exact absurd h (by simp)
        | some rs' =>
          rw [hR] at h
          have h2 : group :: rs' = rs := by simpa using h
          subst h2
          intro g hgmem
          rcases List.mem_cons.mp hgmem with rfl | hmem
          · exact hg
          · exact runsGo_ne_nil time_window max_length rest [m] rs' (by simp) hR g hmem

/-- The pairwise merge relation inside a run. -/
def extendRel (time_window max_length : Int) (a b : Msg) : Prop :=
  extend_cond time_window max_length a b = some true

lemma chain'_append_last {time_window max_length : Int} {l : List Msg} {a : Msg}
    (hc : List.Chain' (extendRel time_window max_length) l)
    (hP : extendRel time_window max_length l.getLastI a) :
    List.Chain' (extendRel time_window max_length) (l ++ [a]) := by
  rw [List.chain'_append]
  refine ⟨hc, List.chain'_singleton a, ?_⟩
  intro x hx y hy
  simp only [List.head?_cons, Option.mem_def, Option.some.injEq] at hy
  subst hy
  have hli : l.getLastI = x := by
    rw [List.getLastI_eq_getLast?, hx]
  rwa [hli] at hP

lemma runsGo_chain' (time_window max_length : Int) :
    ∀ (rest group : List Msg) (rs : List (List Msg)),
      group ≠ [] →
      List.Chain' (extendRel time_window max_length) group →
      runsGo time_window max_length group rest = some rs →
      ∀ g ∈ rs, List.Chain' (extendRel time_window max_length) g
  | [], group, rs => by
    intro _ hch h
    simp only [runsGo, Option.some.injEq] at h
    subst h
    simpa using hch
  | m :: rest, group, rs => by
    intro hg hch h
    simp only [runsGo] at h
    cases hE : extend_cond time_window max_length group.getLastI m with
    | none => rw [hE] at h; exact absurd h (by simp)
    | some b =>
      rw [hE] at h
      cases b with
      | true =>
        exact runsGo_chain' time_window max_length rest (group ++ [m]) rs (by simp)
          (chain'_append_last hch hE) h
      | false =>
        cases hR : runsGo time_window max_length [m] rest with
        | none => rw [hR] at h; exact absurd h (by simp)
        | some rs' =>
          rw [hR] at h
          have h2 : group :: rs' = rs := by simpa using h
          subst h2
          intro g hgmem
          rcases List.mem_cons.mp hgmem with rfl | hmem
          · exact hch
          · exact runsGo_chain' time_window max_length rest [m] rs' (by simp)
              (List.chain'_singleton m) hR g hmem

end Telegram

namespace Telegram

/-- C1: for every consolidation run the single emitted record takes `id`,
`from` and `from_id` from the first message of the run and `date_unixtime`
from the last message, its text is the double-newline join of the run texts
in input order; a run of size 1 is emitted unchanged; the runs are a
contiguous order-preserving partition of the input, so consolidation never
merges non-adjacent messages and never reorders records. -/
theorem consolidate_run_structure (time_window max_length : Int)
    (messages out : List Msg)
    (h : consolidate_messages messages time_window max_length = some out) :
    ∃ runs : List (List Msg),
      runs.flatten = messages ∧
      (∀ g ∈ runs, g ≠ []) ∧
      (∀ g ∈ runs, List.Chain' (extendRel time_window max_length) g) ∧
      out = runs.map emitGroup ∧
      (∀ g ∈ runs, g.length = 1 → emitGroup g = g.headI) ∧
      (∀ g ∈ runs, 1 < g.length →
        (emitGroup g).id = g.headI.id ∧
        (emitGroup g).«from» = g.headI.«from» ∧
        (emitGroup g).from_id = g.headI.from_id ∧
        (emitGroup g).date_unixtime = g.getLastI.date_unixtime ∧
        (emitGroup g).text = pyJoin "\n\n" (g.map Msg.text)) := by
  have hemit1 : ∀ g : List Msg, g.length = 1 → emitGroup g = g.headI := by
    intro g hg
    simp [emitGroup, hg]
  have hemit2 : ∀ g : List Msg, 1 < g.length →
      (emitGroup g).id = g.headI.id ∧
      (emitGroup g).«from» = g.headI.«from» ∧
      (emitGroup g).from_id = g.headI.from_id ∧
      (emitGroup g).date_unixtime = g.getLastI.date_unixtime ∧
      (emitGroup g).text = pyJoin "\n\n" (g.map Msg.text) := by
    intro g hg
    simp [emitGroup, hg]
  match messages with
  | [] =>
    refine ⟨[], by simp, by simp, by simp, ?_, by simp, by simp⟩
    simp only [consolidate_messages, Option.some.injEq] at h
    simp [← h]
  | m :: rest =>
    simp only [consolidate_messages] at h
    rw [consolidateGo_eq_runsGo] at h
    cases hR : runsGo time_window max_length [m] rest with
    | none => rw [hR] at h; exact absurd h (by simp)
    | some rs =>
      rw [hR] at h
      have hout : rs.map emitGroup = out := by simpa using h
      exact ⟨rs, runsGo_flatten time_window max_length rest [m] rs hR,
        runsGo_ne_nil time_window max_length rest [m] rs (by simp) hR,
        runsGo_chain' time_window max_length rest [m] rs (by simp)
          (List.chain'_singleton m) hR,
        hout.symm,
        fun g _ => hemit1 g, fun g _ => hemit2 g⟩

def wA : Msg := ⟨"1", "100", "Al", "u1", "first"⟩
def wB : Msg := ⟨"2", "150", "Al", "u1", "second"⟩
def wC : Msg := ⟨"3", "500", "Bo", "u2", "third"⟩
def wAB : Msg := ⟨"1", "150", "Al", "u1", "first\n\nsecond"⟩

theorem consolidate_run_structure_witness :
    ∃ runs : List (List Msg),
      runs.flatten = [wA, wB, wC] ∧
      (∀ g ∈ runs, g ≠ []) ∧
      (∀ g ∈ runs, List.Chain' (extendRel 180 300) g) ∧
      [wAB, wC] = runs.map emitGroup ∧
      (∀ g ∈ runs, g.length = 1 → emitGroup g = g.headI) ∧
      (∀ g ∈ runs, 1 < g.length →
        (emitGroup g).id = g.headI.id ∧
        (emitGroup g).«from» = g.headI.«from» ∧
        (emitGroup g).from_id = g.headI.from_id ∧
        (emitGroup g).date_unixtime = g.getLastI.date_unixtime ∧
        (emitGroup g).text = pyJoin "\n\n" (g.map Msg.text)) :=
  consolidate_run_structure 180 300 [wA, wB, wC] [wAB, wC] (by decide)

/-- C2: a record extends the current run iff it has the same sender id as
the last record of the run, its timestamp minus the run-last timestamp is
at most `time_window`, and both text lengths are at most `max_length`;
the second conjunct settles both boundary directions (a delta of exactly
`time_window` merges, `time_window + 1` does not; a text of length exactly
`max_length` merges, `max_length + 1` does not, on either side). -/
theorem extend_cond_iff (time_window max_length : Int) (last_msg current_msg : Msg)
    (tl tc : Int)
    (hl : pyInt last_msg.date_unixtime = some tl)
    (hc : pyInt current_msg.date_unixtime = some tc) :
    (extend_cond time_window max_length last_msg current_msg = some true ↔
      (current_msg.from_id = last_msg.from_id ∧ tc - tl ≤ time_window ∧
        (current_msg.text.length : Int) ≤ max_length ∧
        (last_msg.text.length : Int) ≤ max_length)) ∧
    (extend_cond time_window max_length last_msg current_msg = some false ↔
      ¬ (current_msg.from_id = last_msg.from_id ∧ tc - tl ≤ time_window ∧
        (current_msg.text.length : Int) ≤ max_length ∧
        (last_msg.text.length : Int) ≤ max_length)) := by
  unfold extend_cond
  by_cases hid : current_msg.from_id = last_msg.from_id
  · rw [if_pos hid, hc, hl]
    constructor
    · simp [hid]
    · simp [hid]
  · rw [if_neg hid]
    constructor
    · simp [hid]
    · simp [hid]

def wLast : Msg := ⟨"1", "1000", "Al", "u1", "left text"⟩
def wCur : Msg := ⟨"2", "1180", "Al", "u1", "right text"⟩

theorem extend_cond_iff_witness :
    (extend_cond 180 300 wLast wCur = some true ↔
      (wCur.from_id = wLast.from_id ∧ (1180 : Int) - 1000 ≤ 180 ∧
        (wCur.text.length : Int) ≤ 300 ∧ (wLast.text.length : Int) ≤ 300)) ∧
    (extend_cond 180 300 wLast wCur = some false ↔
      ¬ (wCur.from_id = wLast.from_id ∧ (1180 : Int) - 1000 ≤ 180 ∧
        (wCur.text.length : Int) ≤ 300 ∧ (wLast.text.length : Int) ≤ 300)) :=
  extend_cond_iff 180 300 wLast wCur 1000 1180 (by decide) (by decide)

def badDateFirst : Msg := ⟨"1", "100", "Al", "u1", "hello"⟩
def badDateSecond : Msg := ⟨"2", "", "Al", "u1", "world"⟩

/-- C6: `consolidate_messages` converts `date_unixtime` with a bare `int()`
(lines 134 of telegram_simplifier_plus.py); on an entry whose
`date_unixtime` is missing (defaulted to the empty string by
`simplify_messages`) and adjacent to a same-sender message, the conversion
raises an uncaught `ValueError` and the batch aborts, modelled here as the
`none` result: the defect is not recovered in place. -/
theorem consolidate_aborts_on_missing_date :
    consolidate_messages [badDateFirst, badDateSecond] 180 300 = none ∧
    pyInt badDateSecond.date_unixtime = none := by
  constructor
  · decide
  · decide

end Telegram

namespace Telegram

/-- Python `line.split(sep)` for a one-character separator: split at every
occurrence, keeping empty pieces (so `"".split` gives one empty piece). -/
def py_split (sep : Char) : List Char → List (List Char)
  | [] => [[]]
  | c :: cs =>
    let r := py_split sep cs
    if c = sep then [] :: r else (c :: r.headI) :: r.tail

/-- `line.split('|')` returning strings. -/
def splitPipe (line : String) : List String :=
  (py_split '|' line.data).map fun l => ⟨l⟩

/-- Python word character for regex `\w` / `\b` (ASCII fragment):
letters, digits, underscore. -/
def word_char (c : Char) : Bool := c.isAlphanum || c = '_'

/-- Apostrophe, written via its codepoint. -/
def apo : String := String.singleton (Char.ofNat 39)

/-- The literal tokens of the first LOW_VALUE_PHRASES alternation
(telegram_filter_noise.py line 14). -/
def LOW_VALUE_WORDS : List String :=
  ["agreed", "agree", "this", "that", "yes", "no", "yep", "nope", "maybe",
   "ok", "okay", "lol", "haha", "hmm", "cool", "nice", "great", "+1", "-1",
   "same", "^", "indeed", "true", "false", "correct", "wrong", "right",
   "exactly", "precisely", "ofc", "of course", "def", "definitely",
   "absolutely"]

/-- The literal tokens of the second LOW_VALUE_PHRASES alternation
(line 15). -/
def THANKS_WORDS : List String :=
  ["thanks", "thank you", "ty", "thx", "tnx", "thanks!", "ty!"]

/-- Does every codepoint of `s` belong to `chars`? -/
def all_in (s : String) (chars : String) : Bool :=
  s.data.all fun c => chars.data.contains c

/-- LOW_VALUE_PHRASES (lines 13-19), each an anchored full match on the
normalized text: the token alternations, the letter-repetition classes
`[hm]+ | [ha]+ | [lo]+ | [eh]+`, the short `[kw]{1,3}` tokens, and
punctuation-only text. -/
def is_low_value (s : String) : Bool :=
  LOW_VALUE_WORDS.contains s ||
  THANKS_WORDS.contains s ||
  (!s.isEmpty && (all_in s "hm" || all_in s "ha" || all_in s "lo" || all_in s "eh")) ||
  (!s.isEmpty && s.length ≤ 3 && all_in s "kw") ||
  (!s.isEmpty && all_in s ".!?…,:;")

/-- Is `pat` a contiguous sublist of `l`?  (regex `re.search` of a literal). -/
def infix_match (pat : List Char) (l : List Char) : Bool :=
  (List.range (l.length + 1)).any fun i => pat.isPrefixOf (l.drop i)

/-- The literal expansions of OFF_TOPIC_PATTERNS 2-6
(telegram_filter_noise.py lines 24-28): each alternation written out. -/
def OFF_TOPIC_PHRASES : List String :=
  (["take", "move", "continue"].flatMap fun w1 =>
    ["discussion", "conversation", "topic"].map fun w2 =>
      "please " ++ w1 ++ " this " ++ w2 ++ " to") ++
  (["discussion", "conversation", "topic"].map fun w =>
      "this " ++ w ++ " belongs in") ++
  (([apo ++ "s", " is"]).flatMap fun a =>
    ["channel", "group", "chat"].flatMap fun b =>
      ["this", "that", "price"].map fun c =>
        "there" ++ a ++ " a " ++ b ++ " for " ++ c) ++
  (["keep", "stay"].map fun w => "let" ++ apo ++ "s " ++ w ++ " on topic") ++
  (["off", "getting off"].map fun w => "this is " ++ w ++ " topic")

/-- OFF_TOPIC_PATTERNS rule 1 (line 23): `^(\/off|\/price)\b` — the text
starts with `/off` or `/price` followed by a word boundary. -/
def slash_command (s : String) : Bool :=
  ("/off".data.isPrefixOf s.data &&
    (match s.data.drop 4 with | [] => true | c :: _ => !word_char c)) ||
  ("/price".data.isPrefixOf s.data &&
    (match s.data.drop 6 with | [] => true | c :: _ => !word_char c))

/-- OFF_TOPIC_PATTERNS (lines 22-29), searched anywhere in the normalized
text. -/
def is_off_topic (s : String) : Bool :=
  slash_command s ||
  OFF_TOPIC_PHRASES.any fun p => infix_match p.data s.data

/-- A codepoint inside one of the symbol ranges of EMOJI_PATTERN
(telegram_filter_noise.py line 32). -/
def emoji_char (c : Char) : Bool :=
  (0x1F300 ≤ c.toNat && c.toNat ≤ 0x1F6FF) ||
  (0x1F700 ≤ c.toNat && c.toNat ≤ 0x1F77F) ||
  (0x1F780 ≤ c.toNat && c.toNat ≤ 0x1F7FF) ||
  (0x1F800 ≤ c.toNat && c.toNat ≤ 0x1F8FF) ||
  (0x1F900 ≤ c.toNat && c.toNat ≤ 0x1F9FF) ||
  (0x1FA00 ≤ c.toNat && c.toNat ≤ 0x1FA6F) ||
  (0x1FA70 ≤ c.toNat && c.toNat ≤ 0x1FAFF) ||
  (0x2702 ≤ c.toNat && c.toNat ≤ 0x27B0) ||
  (0x24C2 ≤ c.toNat && c.toNat ≤ 0x1F251) ||
  (0x1F926 ≤ c.toNat && c.toNat ≤ 0x1F937)

/-- EMOJI_PATTERN `^[\W\s]*[ranges]+[\W\s]*$`: some decomposition
prefix-body-suffix where the body is a nonempty run of range codepoints and
both ends contain only non-word characters (`[\W\s]` equals `\W` since
whitespace is not a word character).  Matching is the existence of such a
decomposition, as with regex backtracking. -/
def is_emoji_only (s : String) : Bool :=
  let l := s.data
  let n := l.length
  (List.range (n + 1)).any fun i =>
    (List.range (n + 1)).any fun j =>
      decide (i < j) && decide (j ≤ n) &&
      (l.take i).all (fun c => !word_char c) &&
      ((l.drop i).take (j - i)).all emoji_char &&
      (l.drop j).all (fun c => !word_char c)

/-- URL_ONLY_PATTERN `^\s*(\[[\w\.]+\])\s*$` (line 35): optional
whitespace, a bracketed nonempty run of word-or-dot characters, optional
whitespace. -/
def is_url_only (s : String) : Bool :=
  match s.data.dropWhile py_space with
  | '[' :: rest =>
    let body := rest.takeWhile fun c => word_char c || c = '.'
    !body.isEmpty &&
      (match rest.dropWhile (fun c => word_char c || c = '.') with
       | ']' :: tail => tail.all py_space
       | _ => false)
  | _ => false

/-- The normalized text of the filtering loop: the field is first stripped
(`text = parts[4].strip()`, line 178), then
`normalized_text = text.strip().lower()` (line 187). -/
def normalized_of (field : String) : String := pyLower (pyStrip (pyStrip field))

/-- Does the text contain a double newline (`text.count('\n\n')` positive,
the marker of a consolidated record)? -/
def has_double_newline (s : String) : Bool :=
  infix_match ['\n', '\n'] s.data

/-- Classification outcome of the noise-filter loop for one well-formed
record. -/
inductive Outcome where
  | kept
  | empty
  | low_value
  | off_topic
  | emoji_only
  | url_only
deriving DecidableEq, Inhabited

/-- The classification chain of `filter_noise`
(telegram_filter_noise.py lines 178-228): empty text, then
LOW_VALUE_PHRASES, OFF_TOPIC_PATTERNS, EMOJI_PATTERN, URL_ONLY_PATTERN in
priority order with first match winning, then the minimum-length rule
(`min_length > 0 and len(text) <= min_length and not text.count('\n\n')`),
else kept. -/
def classify (min_length : Int) (field : String) : Outcome :=
  if pyStrip field = "" then Outcome.empty
  else if normalized_of field = "" then Outcome.empty
  else if is_low_value (normalized_of field) then Outcome.low_value
  else if is_off_topic (normalized_of field) then Outcome.off_topic
  else if is_emoji_only (normalized_of field) then Outcome.emoji_only
  else if is_url_only (normalized_of field) then Outcome.url_only
  else if 0 < min_length ∧ ((pyStrip field).length : Int) ≤ min_length ∧
          ¬ has_double_newline (pyStrip field) then Outcome.low_value
  else Outcome.kept

/-- One line survives the noise-classification stage
(lines 171-228): a line with fewer than five pipe-separated fields is kept
as-is; otherwise the record is kept iff its text classifies as `kept`. -/
def noiseKeep (min_length : Int) (line : String) : Bool :=
  if (splitPipe line).length < 5 then true
  else decide (classify min_length ((splitPipe line).getD 4 "") = Outcome.kept)

/-- Numeric value used by the range restriction: `int(p) if p.isdigit()
else 0` (lines 136-137). -/
def digit_or_zero (p : String) : Int :=
  if pyIsDigit p then (digitsVal p.data : Int) else 0

/-- One line survives the id/date range restriction (lines 130-149):
lines with fewer than five fields are kept; otherwise the line is kept
unless its parsed id falls below `start_msg_id` or its parsed timestamp
falls below `start_timestamp`. -/
def rangeKeep (start_msg_id start_timestamp : Option Int) (line : String) : Bool :=
  if (splitPipe line).length < 5 then true
  else
    let msg_id := digit_or_zero ((splitPipe line).getD 0 "")
    let date_unixtime := digit_or_zero ((splitPipe line).getD 1 "")
    let dropById : Bool :=
      match start_msg_id with
      | some s => decide (msg_id < s)
      | none => false
    let dropByDate : Bool :=
      match start_timestamp with
      | some t => decide (date_unixtime < t)
      | none => false
    !(dropById || dropByDate)

/-- `filter_noise` over the post-header lines
(telegram_filter_noise.py lines 126-228): the range restriction runs only
when a start id or a resolved start date is given, then the noise
classification keeps the surviving lines whose text is not noise. -/
def filter_noise (min_length : Int) (start_msg_id start_timestamp : Option Int)
    (lines : List String) : List String :=
  let ranged :=
    if start_msg_id.isSome || start_timestamp.isSome then
      lines.filter (rangeKeep start_msg_id start_timestamp)
    else lines
  ranged.filter (noiseKeep min_length)

example : classify 0 "" = Outcome.empty := by decide
example : classify 0 "please move this discussion to the off-topic channel" = Outcome.off_topic := by decide
example : classify 5 "zzzzz" = Outcome.low_value := by decide
example : rangeKeep (some 5) none "abc|100|n|i|hello" = false := by decide
example : noiseKeep 0 "1|10|a|u|hello" = true := by decide
example : filter_noise 0 (some 2) none ["1|10|a|u|hello", "5|20|b|v|world!"] = ["5|20|b|v|world!"] := by decide

end Telegram

namespace Telegram

/-- C3: the classification of a record text is total and deterministic —
every text maps to exactly one outcome under the fixed priority order —
and on the four sample texts it yields low_value, empty, url_only and
off_topic respectively. -/
theorem classify_total_deterministic :
    (∀ (min_length : Int) (t : String) (o1 o2 : Outcome),
      classify min_length t = o1 → classify min_length t = o2 → o1 = o2) ∧
    classify 0 "lol" = Outcome.low_value ∧
    classify 0 "" = Outcome.empty ∧
    classify 0 "[example.com]" = Outcome.url_only ∧
    classify 0 "please move this discussion to the off-topic channel" =
      Outcome.off_topic :=
  ⟨fun _ _ _ _ h1 h2 => h1 ▸ h2, by decide, by decide, by decide, by decide⟩

theorem classify_total_deterministic_witness : Outcome.low_value = Outcome.low_value :=
  classify_total_deterministic.1 0 "lol" Outcome.low_value Outcome.low_value
    (by decide) (by decide)

/-- C4 counterexample: the well-formed record `abc|100|n|i|hello` has a
non-numeric id field, yet the range restriction with `start_id = 5` drops
it (`int(parts[0]) if parts[0].isdigit() else 0` maps the id to 0, which is
below any positive threshold), contradicting the claim that a record with a
non-numeric id is not dropped on account of that field. -/
theorem range_drops_nonnumeric_id :
    rangeKeep (some 5) none "abc|100|n|i|hello" = false ∧
    (splitPipe "abc|100|n|i|hello").length = 5 ∧
    pyIsDigit "abc" = false ∧
    pyIsDigit "100" = true := by
  refine ⟨by decide, by decide, by decide, by decide⟩

/-- C4 amended: a line with fewer than five pipe-separated fields is never
dropped by the range restriction; a well-formed record is dropped iff its
id parsed with non-numeric defaulting to 0 is below `start_id`, or its
timestamp parsed the same way is below the resolved start-date threshold
(so a present-but-non-numeric field counts as 0 and is dropped whenever the
corresponding threshold is positive). -/
theorem range_drop_iff (start_msg_id start_timestamp : Option Int) (line : String) :
    ((splitPipe line).length < 5 →
      rangeKeep start_msg_id start_timestamp line = true) ∧
    (5 ≤ (splitPipe line).length →
      (rangeKeep start_msg_id start_timestamp line = false ↔
        (∃ s, start_msg_id = some s ∧
          digit_or_zero ((splitPipe line).getD 0 "") < s) ∨
        (∃ t, start_timestamp = some t ∧
          digit_or_zero ((splitPipe line).getD 1 "") < t))) := by
  constructor
  · intro hlt
    simp [rangeKeep, hlt]
  · intro hge
    have hnot : ¬ (splitPipe line).length < 5 := by omega
    simp only [rangeKeep, if_neg hnot]
    cases start_msg_id <;> cases start_timestamp <;>
      simp <;> omega

theorem range_drop_iff_witness :
    rangeKeep (some 5) none "7|100|a|u|x" = false ↔
      (∃ s, (some 5 : Option Int) = some s ∧
        digit_or_zero ((splitPipe "7|100|a|u|x").getD 0 "") < s) ∨
      (∃ t, (none : Option Int) = some t ∧
        digit_or_zero ((splitPipe "7|100|a|u|x").getD 1 "") < t) :=
  (range_drop_iff (some 5) none "7|100|a|u|x").2 (by decide)

/-- C7 counterexample: with `min_length = 5` the record text `zzzzz`
matches none of the five noise categories, contains no double newline, and
has length exactly the threshold, yet it is classified low_value (the code
tests `len(text) <= min_length`, not a strict inequality), contradicting
the claim that a text of length equal to the threshold is kept. -/
theorem minlen_boundary_counterexample :
    classify 5 "zzzzz" = Outcome.low_value ∧
    is_low_value (normalized_of "zzzzz") = false ∧
    is_off_topic (normalized_of "zzzzz") = false ∧
    is_emoji_only (normalized_of "zzzzz") = false ∧
    is_url_only (normalized_of "zzzzz") = false ∧
    has_double_newline (pyStrip "zzzzz") = false ∧
    ¬ (((pyStrip "zzzzz").length : Int) < 5) := by
  refine ⟨by decide, by decide, by decide, by decide, by decide, by decide, by decide⟩

/-- C7 amended: when a minimum length is configured, a well-formed record
whose text matches none of the five noise categories and contains no
internal double newline is classified low_value iff its text length is at
most the threshold, and is kept iff its text length exceeds the
threshold. -/
theorem minlen_boundary (min_length : Int) (field : String)
    (hm : 0 < min_length)
    (ht : pyStrip field ≠ "")
    (hn : normalized_of field ≠ "")
    (h1 : is_low_value (normalized_of field) = false)
    (h2 : is_off_topic (normalized_of field) = false)
    (h3 : is_emoji_only (normalized_of field) = false)
    (h4 : is_url_only (normalized_of field) = false)
    (h5 : has_double_newline (pyStrip field) = false) :
    (classify min_length field = Outcome.low_value ↔
      ((pyStrip field).length : Int) ≤ min_length) ∧
    (min_length < ((pyStrip field).length : Int) →
      classify min_length field = Outcome.kept) := by
  simp only [classify, if_neg ht, if_neg hn, h1, h2, h3, h4, h5,
    Bool.false_eq_true, if_false]
  by_cases hlen : ((pyStrip field).length : Int) ≤ min_length
  · rw [if_pos ⟨hm, hlen, by simp [h5]⟩]
    constructor
    · simp [hlen]
    · intro hgt
      omega
  · rw [if_neg (by intro hcon; exact hlen hcon.2.1)]
    constructor
    · simp [hlen]
    · intro _
      rfl

theorem minlen_boundary_witness :
    classify 5 "zzzzzz" = Outcome.kept :=
  (minlen_boundary 5 "zzzzzz" (by decide) (by decide) (by decide) (by decide)
    (by decide) (by decide) (by decide) (by decide)).2 (by decide)

lemma rangeKeep_mono_id {s1 s2 : Int} (hs : s1 ≤ s2) (ts : Option Int)
    (line : String) (h : rangeKeep (some s2) ts line = true) :
    rangeKeep (some s1) ts line = true := by
  by_cases hlt : (splitPipe line).length < 5
  · simp [rangeKeep, hlt]
  · simp only [rangeKeep, if_neg hlt] at h ⊢
    cases ts <;> simp at h ⊢ <;> omega

lemma rangeKeep_mono_date {t1 t2 : Int} (ht : t1 ≤ t2) (sid : Option Int)
    (line : String) (h : rangeKeep sid (some t2) line = true) :
    rangeKeep sid (some t1) line = true := by
  by_cases hlt : (splitPipe line).length < 5
  · simp [rangeKeep, hlt]
  · simp only [rangeKeep, if_neg hlt] at h ⊢
    cases sid <;> simp at h ⊢ <;> omega

/-- C9: the range restriction is monotonic — with the other parameter
fixed, raising `start_id` or raising the resolved start-date threshold
never increases the number of kept records. -/
theorem range_restriction_monotone (lines : List String) (min_length : Int) :
    (∀ (ts : Option Int) (s1 s2 : Int), s1 ≤ s2 →
      (filter_noise min_length (some s2) ts lines).length ≤
        (filter_noise min_length (some s1) ts lines).length) ∧
    (∀ (sid : Option Int) (t1 t2 : Int), t1 ≤ t2 →
      (filter_noise min_length sid (some t2) lines).length ≤
        (filter_noise min_length sid (some t1) lines).length) := by
  constructor
  · intro ts s1 s2 hs
    simp only [filter_noise, Option.isSome_some, Bool.true_or, if_pos]
    exact List.Sublist.length_le <| List.Sublist.filter _ <|
      List.monotone_filter_right lines fun line h =>
        rangeKeep_mono_id hs ts line h
  · intro sid t1 t2 ht
    simp only [filter_noise, Option.isSome_some, Bool.or_true, if_pos]
    exact List.Sublist.length_le <| List.Sublist.filter _ <|
      List.monotone_filter_right lines fun line h =>
        rangeKeep_mono_date ht sid line h

theorem range_restriction_monotone_witness :
    (filter_noise 0 (some 6) none ["1|10|a|u|hello", "5|20|b|v|world!"]).length ≤
      (filter_noise 0 (some 2) none ["1|10|a|u|hello", "5|20|b|v|world!"]).length :=
  (range_restriction_monotone ["1|10|a|u|hello", "5|20|b|v|world!"] 0).1 none 2 6
    (by decide)

lemma classify_kept_zero {min_length : Int} {field : String}
    (h : classify min_length field = Outcome.kept) :
    classify 0 field = Outcome.kept := by
  unfold classify at h ⊢
  split_ifs at h with g1 g2 g3 g4 g5 g6 g7
  have h0 : ¬ (0 < (0 : Int) ∧ ((pyStrip field).length : Int) ≤ 0 ∧
      ¬ has_double_newline (pyStrip field) = true) :=
    fun hc => absurd hc.1 (lt_irrefl 0)
  rw [if_neg g1, if_neg g2, if_neg g3, if_neg g4, if_neg g5, if_neg g6, if_neg h0]

/-- C10: the actual filtering path of the Noise Filter has no long-message
bypass — a well-formed record whose normalized text matches one of the five
noise categories is dropped for every `min_length`, and consequently the
lines kept with any `min_length` are a sublist of the lines kept with
`min_length = 0` (a record kept at `min_length` is kept at 0). -/
theorem no_long_message_bypass :
    (∀ (min_length : Int) (line : String),
      noiseKeep min_length line = true → noiseKeep 0 line = true) ∧
    (∀ (min_length : Int) (line : String),
      5 ≤ (splitPipe line).length →
      (pyStrip ((splitPipe line).getD 4 "") = "" ∨
       normalized_of ((splitPipe line).getD 4 "") = "" ∨
       is_low_value (normalized_of ((splitPipe line).getD 4 "")) = true ∨
       is_off_topic (normalized_of ((splitPipe line).getD 4 "")) = true ∨
       is_emoji_only (normalized_of ((splitPipe line).getD 4 "")) = true ∨
       is_url_only (normalized_of ((splitPipe line).getD 4 "")) = true) →
      noiseKeep min_length line = false) ∧
    (∀ (min_length : Int) (start_msg_id start_timestamp : Option Int)
        (lines : List String),
      (filter_noise min_length start_msg_id start_timestamp lines).Sublist
        (filter_noise 0 start_msg_id start_timestamp lines)) := by
  refine ⟨?_, ?_, ?_⟩
  · intro min_length line h
    by_cases hlt : (splitPipe line).length < 5
    · simp [noiseKeep, hlt]
    · simp only [noiseKeep, if_neg hlt, decide_eq_true_eq] at h ⊢
      exact classify_kept_zero h
  · intro min_length line hge hcat
    have hnot : ¬ (splitPipe line).length < 5 := by omega
    simp only [noiseKeep, if_neg hnot, decide_eq_false_iff_not]
    intro hkept
    unfold classify at hkept
    split_ifs at hkept with g1 g2 g3 g4 g5 g6 g7
    rcases hcat with hc | hc | hc | hc | hc | hc <;> simp_all
  · intro min_length sid sts lines
    unfold filter_noise
    exact List.monotone_filter_right _ fun line h => by
      by_cases hlt : (splitPipe line).length < 5
      · simp [noiseKeep, hlt]
      · simp only [noiseKeep, if_neg hlt, decide_eq_true_eq] at h ⊢
        exact classify_kept_zero h

theorem no_long_message_bypass_witness :
    noiseKeep 0 "1|10|a|u|interesting message" = true :=
  no_long_message_bypass.1 5 "1|10|a|u|interesting message" (by decide)

end Telegram

namespace Telegram

/-- Character count added for one line in `split_file_by_char_count`
(chunk_splitter_with_dates.py line 79): the line length plus one for the
newline. -/
def line_chars (line : String) : Nat := line.length + 1

/-- Accumulated `current_chars` of a buffer: the sum of `line_chars`. -/
def chunk_chars (g : List String) : Nat := (g.map line_chars).sum

/-- The line-packing loop of `split_file_by_char_count` (lines 71-123):
before adding a line, if the buffer is nonempty and the accumulated
character count plus the line would exceed `max_chars`, the buffer is
flushed as a chunk; after the loop a nonempty buffer is flushed as the
final chunk. -/
def splitChunksGo (max_chars : Int) (current : List String) (chars : Nat) :
    List String → List (List String)
  | [] => if current.isEmpty then [] else [current]
  | line :: rest =>
    if (((chars + line_chars line : Nat) : Int) > max_chars) ∧ current ≠ [] then
      current :: splitChunksGo max_chars [line] (line_chars line) rest
    else
      splitChunksGo max_chars (current ++ [line]) (chars + line_chars line) rest

/-- The chunk decomposition produced by `split_file_by_char_count` on the
post-header line list. -/
def splitChunks (max_chars : Int) (lines : List String) : List (List String) :=
  splitChunksGo max_chars [] 0 lines

/-- The text written for one chunk file (lines 90-95 and 125-130):
the header followed by a newline on the first chunk only, then the
newline-join of the buffered lines. -/
def chunkFiles (header : Option String) (max_chars : Int) (lines : List String) :
    List String :=
  (splitChunks max_chars lines).mapIdx fun i g =>
    (if i = 0 then (match header with | some h => h ++ "\n" | none => "") else "") ++
      pyJoin "\n" g

lemma splitChunksGo_flatten (max_chars : Int) :
    ∀ (rest current : List String) (chars : Nat),
      (splitChunksGo max_chars current chars rest).flatten = current ++ rest
  | [], current, chars => by
    by_cases h : current.isEmpty
    · simp [splitChunksGo, h, List.isEmpty_iff.mp h]
    · simp [splitChunksGo, h]
  | line :: rest, current, chars => by
    simp only [splitChunksGo]
    split_ifs with h
    · simp [splitChunksGo_flatten max_chars rest [line]]
    · simp [splitChunksGo_flatten max_chars rest (current ++ [line])]

lemma splitChunksGo_budget (max_chars : Int) :
    ∀ (rest current : List String) (chars : Nat),
      chars = chunk_chars current →
      (2 ≤ current.length → (chars : Int) ≤ max_chars) →
      ∀ g ∈ splitChunksGo max_chars current chars rest,
        2 ≤ g.length → (chunk_chars g : Int) ≤ max_chars
  | [], current, chars => by
    intro hc hb g hg hlen
    by_cases h : current.isEmpty
    · simp [splitChunksGo, h] at hg
    · simp only [splitChunksGo, h, if_false, Bool.false_eq_true, List.mem_singleton] at hg
      subst hg
      rw [← hc]
      exact hb hlen
  | line :: rest, current, chars => by
    intro hc hb g hg hlen
    simp only [splitChunksGo] at hg
    split_ifs at hg with h
    · rcases List.mem_cons.mp hg with rfl | hmem
      · rw [← hc]
        exact hb hlen
      · refine splitChunksGo_budget max_chars rest [line] (line_chars line) (by simp [chunk_chars]) ?_ g hmem hlen
        intro h2
        simp at h2
    · refine splitChunksGo_budget max_chars rest (current ++ [line]) (chars + line_chars line) ?_ ?_ g hg hlen
      · simp [chunk_chars, hc]
      · intro hlen2
        rw [not_and_or] at h
        rcases h with h | h
        · push_neg at h
          exact h
        · push_neg at h
          subst h
          simp at hlen2

lemma pyJoin_newline_length :
    ∀ (g : List String), g ≠ [] →
      (pyJoin "\n" g).length + 1 = chunk_chars g
  | [], h => absurd rfl h
  | [a], _ => by simp [pyJoin, chunk_chars, line_chars]
  | a :: b :: rest, _ => by
    have ih := pyJoin_newline_length (b :: rest) (by simp)
    have h1 : ("\n" : String).length = 1 := rfl
    simp only [pyJoin, chunk_chars, line_chars, List.map_cons, List.sum_cons,
      String.length_append, h1] at ih ⊢
    omega

/-- C5 counterexample: with header `# Format:` and budget 12, the input
lines `ab`, `cd` fit one buffer (3 + 3 = 6 characters counted), but the
emitted first file also carries the header, whose length the packing loop
never counts: the single produced file has content length 15 > 12 while
its chunk holds two lines, contradicting the claim that a chunk file
exceeds the budget only when it consists of a single overlong line. -/
theorem chunk_header_budget_violation :
    chunkFiles (some "# Format:") 12 ["ab", "cd"] = ["# Format:\nab\ncd"] ∧
    (("# Format:\nab\ncd" : String).length : Int) > 12 ∧
    splitChunks 12 ["ab", "cd"] = [["ab", "cd"]] := by
  refine ⟨by decide, by decide, by decide⟩

/-- C5 amended: the chunks are a contiguous, order-preserving partition of
the input lines (so concatenating the chunk line sequences in order
reproduces the input exactly and lines are never split across chunks), and
the newline-joined body of every chunk of two or more lines — the file
content apart from the header prepended to the first file — never exceeds
the budget; only a chunk consisting of a single line, or the first file
through its uncounted header, can exceed it. -/
theorem chunk_split_partition_budget (max_chars : Int) (lines : List String) :
    (splitChunks max_chars lines).flatten = lines ∧
    (∀ g ∈ splitChunks max_chars lines,
      ∃ pre post : List String, pre ++ g ++ post = lines) ∧
    (∀ g ∈ splitChunks max_chars lines, 2 ≤ g.length →
      ((pyJoin "\n" g).length : Int) ≤ max_chars - 1) := by
  have hflat : (splitChunks max_chars lines).flatten = lines :=
    splitChunksGo_flatten max_chars lines [] 0
  refine ⟨hflat, ?_, ?_⟩
  · intro g hg
    have : g <:+: (splitChunks max_chars lines).flatten :=
      List.infix_of_mem_flatten hg
    rw [hflat] at this
    exact this
  · intro g hg hlen
    have hbud : (chunk_chars g : Int) ≤ max_chars :=
      splitChunksGo_budget max_chars lines [] 0 (by simp [chunk_chars])
        (by intro h; simp at h) g hg hlen
    have hjoin : (pyJoin "\n" g).length + 1 = chunk_chars g :=
      pyJoin_newline_length g (by rintro rfl; simp at hlen)
    omega

theorem chunk_split_partition_budget_witness :
    ((pyJoin "\n" ["ab", "cd"]).length : Int) ≤ 12 - 1 :=
  (chunk_split_partition_budget 12 ["ab", "cd"]).2.2 ["ab", "cd"] (by decide)
    (by decide)

end Telegram

namespace Telegram

/-- One item of a rich-text `text` list in the export: a plain string, a
structured span carrying a `text` key, or a span without one. -/
inductive TextItem where
  | plain (s : String)
  | span (text : String)
  | nontext
deriving DecidableEq

/-- The raw `text` field of an export entry: a plain string, a list of
items, or any other JSON value. -/
inductive TextField where
  | str (s : String)
  | items (l : List TextItem)
  | other
deriving DecidableEq

/-- `flatten_text` (telegram_simplifier_plus.py lines 18-30): a string is
returned as-is; a list concatenates every plain string and every span's
`text` in order; anything else flattens to the empty string. -/
def flatten_text : TextField → String
  | TextField.str s => s
  | TextField.items l =>
      l.foldl (fun acc it =>
        match it with
        | TextItem.plain s => acc ++ s
        | TextItem.span t => acc ++ t
        | TextItem.nontext => acc) ""
  | TextField.other => ""

/-- A raw export entry with the fields `simplify_messages` reads; a missing
JSON field is the empty string (`msg.get(key, '')`). -/
structure RawMsg where
  type : String
  id : String
  date_unixtime : String
  «from» : String
  from_id : String
  text : TextField
deriving DecidableEq

/-- The fixed bot identifier list (line 47). -/
def known_bots : List String := ["Rose", "user609517172"]

/-- The plain-substring bot patterns of lines 53-61 (all but the first),
matched case-insensitively: modelled by lowering the text and searching the
lowered literals. -/
def BOT_PHRASES : List String :=
  ["please remember to follow the rules",
   "this group has rules that you agreed to",
   "has joined the group",
   "has left the group",
   "has been banned",
   "has been removed"]

/-- The welcome pattern `Hey there .+, and welcome to` (line 54), searched
case-insensitively: some position carries the literal `hey there `, then at
least one non-newline character, then the literal `, and welcome to`. -/
def welcome_match (l : List Char) : Bool :=
  (List.range (l.length + 1)).any fun i =>
    (List.range (l.length + 1)).any fun j =>
      decide (i + 10 < j) &&
      "hey there ".data.isPrefixOf (l.drop i) &&
      ((l.drop (i + 10)).take (j - (i + 10))).all (fun c => c ≠ '\n') &&
      ", and welcome to".data.isPrefixOf (l.drop j)

/-- `is_bot_or_machine_message` (lines 32-67): a non-`message` type, a
known bot sender name or id, or a bot-pattern match in the flattened
text. -/
def is_bot_or_machine_message (m : RawMsg) : Bool :=
  m.type ≠ "message" ||
  known_bots.contains m.«from» ||
  known_bots.contains m.from_id ||
  (let lt := pyLower (flatten_text m.text)
   welcome_match lt.data || BOT_PHRASES.any fun p => infix_match p.data lt.data)

/-- The URL modes accepted by the CLI (`preserve`, `replace`, `domain`). -/
inductive UrlMode where
  | preserve
  | replace
  | domain
deriving DecidableEq

/-- Leftmost match of `https?://\S+` at the head of `l`: the scheme prefix
(greedy, so `https` before `http`) followed by a maximal nonempty run of
non-whitespace; returns the match length. -/
def url_match_at (l : List Char) : Option Nat :=
  if "https://".data.isPrefixOf l then
    let run := (l.drop 8).takeWhile fun c => !py_space c
    if run.isEmpty then none else some (8 + run.length)
  else if "http://".data.isPrefixOf l then
    let run := (l.drop 7).takeWhile fun c => !py_space c
    if run.isEmpty then none else some (7 + run.length)
  else none

/-- `re.sub(r'https?://\S+', repl, ·)` by left-to-right scan with
non-overlapping matches; the fuel argument (instantiated with the input
length) bounds the recursion and is never exhausted since every step
consumes at least one character. -/
def sub_urls_go (repl : List Char → List Char) : Nat → List Char → List Char
  | 0, l => l
  | _ + 1, [] => []
  | fuel + 1, c :: cs =>
    match url_match_at (c :: cs) with
    | some m => repl ((c :: cs).take m) ++ sub_urls_go repl fuel ((c :: cs).drop m)
    | none => c :: sub_urls_go repl fuel cs

/-- `urlparse(url).netloc` for a matched URL: the authority runs from
after the scheme separator to the first `/`, `?` or `#`. -/
def url_netloc (m : List Char) : List Char :=
  (if "https://".data.isPrefixOf m then m.drop 8 else m.drop 7).takeWhile
    fun c => c ≠ '/' && c ≠ '?' && c ≠ '#'

/-- The `domain` replacement (lines 95-101): the netloc wrapped in square
brackets; a netloc with an unbalanced square bracket raises `ValueError`
inside `urlparse`, caught and replaced by the `[URL]` placeholder. -/
def domain_only (m : List Char) : List Char :=
  if (url_netloc m).contains '[' != (url_netloc m).contains ']' then "[URL]".data
  else '[' :: (url_netloc m ++ [']'])

/-- `transform_urls(text, mode)` (lines 69-106). -/
def transform_urls (text : String) (mode : UrlMode) : String :=
  match mode with
  | UrlMode.preserve => text
  | UrlMode.replace => ⟨sub_urls_go (fun _ => "[URL]".data) text.data.length text.data⟩
  | UrlMode.domain => ⟨sub_urls_go domain_only text.data.length text.data⟩

/-- The record-building loop of `simplify_messages` (lines 252-286): the
optional bot filter, then for each remaining entry of type `message` whose
flattened text is nonempty, a record with the URL-transformed text. -/
def simplified_records (filter_bots : Bool) (url_mode : UrlMode)
    (messages : List RawMsg) : List Msg :=
  let kept := if filter_bots then
      messages.filter fun m => !is_bot_or_machine_message m
    else messages
  kept.filterMap fun m =>
    if m.type = "message" then
      if flatten_text m.text ≠ "" then
        some { id := m.id, date_unixtime := m.date_unixtime, «from» := m.«from»,
               from_id := m.from_id,
               text := transform_urls (flatten_text m.text) url_mode }
      else none
    else none

/-- `simplify_messages` up to the serialization step: the simplified
records, consolidated when the toggle is on (lines 293-297). -/
def simplify_out (filter_bots : Bool) (url_mode : UrlMode) (consolidate : Bool)
    (time_window max_length : Int) (messages : List RawMsg) : Option (List Msg) :=
  let simplified := simplified_records filter_bots url_mode messages
  if consolidate then consolidate_messages simplified time_window max_length
  else some simplified

/-- The escaping applied to a record text before writing the
pipe-delimited line (line 310): `text.replace('|', '\\|').replace('\n', ' ')`,
which maps each codepoint to a nonempty replacement. -/
def safe_text (s : String) : String :=
  ⟨(s.data.map fun c =>
      if c = '|' then ['\\', '|'] else if c = '\n' then [' '] else [c]).flatten⟩

lemma sub_urls_go_ne_nil (repl : List Char → List Char)
    (hrepl : ∀ x, repl x ≠ []) :
    ∀ (fuel : Nat) (l : List Char), l ≠ [] → sub_urls_go repl fuel l ≠ []
  | 0, l => fun h => h
  | _ + 1, [] => fun h => absurd rfl h
  | fuel + 1, c :: cs => by
    intro _
    simp only [sub_urls_go]
    cases h : url_match_at (c :: cs) with
    | none => simp
    | some m =>
      have := hrepl ((c :: cs).take m)
      simp [this]

lemma transform_urls_ne_empty (text : String) (mode : UrlMode)
    (h : text ≠ "") : transform_urls text mode ≠ "" := by
  have hdata : text.data ≠ [] := by
    intro hc
    exact h (by cases text; simp_all)
  have hmk : ∀ l : List Char, l ≠ [] → (⟨l⟩ : String) ≠ "" := by
    intro l hl hc
    exact hl (congrArg String.data hc)
  cases mode with
  | preserve => exact h
  | replace =>
    exact hmk _ (sub_urls_go_ne_nil _ (fun _ => by decide) _ _ hdata)
  | domain =>
    refine hmk _ (sub_urls_go_ne_nil domain_only (fun x => ?_) _ _ hdata)
    intro hc
    unfold domain_only at hc
    split_ifs at hc

lemma simplified_records_text_ne_empty (filter_bots : Bool) (url_mode : UrlMode)
    (messages : List RawMsg) :
    ∀ r ∈ simplified_records filter_bots url_mode messages, r.text ≠ "" := by
  intro r hr
  unfold simplified_records at hr
  rcases List.mem_filterMap.mp hr with ⟨m, _, hm⟩
  split_ifs at hm with h1 h2
  · simp only [Option.some.injEq] at hm
    subst hm
    exact transform_urls_ne_empty _ _ h2

lemma pyJoin_sep_ne_empty (sep : String) (hsep : sep ≠ "") :
    ∀ (l : List String), 2 ≤ l.length → pyJoin sep l ≠ ""
  | a :: b :: rest, _ => by
    simp only [pyJoin]
    intro hc
    have : (a ++ sep ++ pyJoin sep (b :: rest)).length = 0 := by rw [hc]; rfl
    simp only [String.length_append] at this
    have hsl : sep.length ≠ 0 := by
      intro h0
      exact hsep (by cases sep with | mk d => cases d with | nil => rfl | cons x xs => simp at h0)
    omega

lemma emitGroup_text_ne_empty (g : List Msg) (hne : g ≠ [])
    (h : ∀ m ∈ g, m.text ≠ "") : (emitGroup g).text ≠ "" := by
  unfold emitGroup
  split_ifs with hlen
  · have : 2 ≤ (g.map Msg.text).length := by simp; omega
    exact pyJoin_sep_ne_empty "\n\n" (by decide) _ this
  · rcases g with _ | ⟨a, rest⟩
    · exact absurd rfl hne
    · exact h _ (List.mem_cons_self a rest)

lemma consolidate_text_ne_empty (messages out : List Msg)
    (time_window max_length : Int)
    (hall : ∀ m ∈ messages, m.text ≠ "")
    (h : consolidate_messages messages time_window max_length = some out) :
    ∀ r ∈ out, r.text ≠ "" := by
  match messages with
  | [] =>
    simp only [consolidate_messages, Option.some.injEq] at h
    subst h
    simp
  | m0 :: rest =>
    simp only [consolidate_messages] at h
    rw [consolidateGo_eq_runsGo] at h
    cases hR : runsGo time_window max_length [m0] rest with
    | none => rw [hR] at h; exact absurd h (by simp)
    | some rs =>
      rw [hR] at h
      have hout : rs.map emitGroup = out := by simpa using h
      have hflat := runsGo_flatten time_window max_length rest [m0] rs hR
      have hnil := runsGo_ne_nil time_window max_length rest [m0] rs (by simp) hR
      intro r hr
      rw [← hout] at hr
      rcases List.mem_map.mp hr with ⟨g, hg, rfl⟩
      refine emitGroup_text_ne_empty g (hnil g hg) ?_
      intro m hm
      have hflat2 : rs.flatten = m0 :: rest := by simpa using hflat
      refine hall m ?_
      rw [← hflat2]
      exact List.mem_flatten.mpr ⟨g, hg, hm⟩

/-- C8: for every input export and every configuration, the Simplifier
never produces a record with empty text: every record surviving
`simplify_messages` (whether or not consolidation runs) has nonempty text,
and so does its escaped form written to the pipe-delimited output; the
markdown rendering echoes the same records. -/
theorem simplifier_no_empty_text (filter_bots : Bool) (url_mode : UrlMode)
    (consolidate : Bool) (time_window max_length : Int)
    (messages : List RawMsg) (out : List Msg)
    (h : simplify_out filter_bots url_mode consolidate time_window max_length
      messages = some out) :
    ∀ r ∈ out, r.text ≠ "" ∧ safe_text r.text ≠ "" := by
  have hsafe : ∀ s : String, s ≠ "" → safe_text s ≠ "" := by
    intro s hs hc
    rcases s with ⟨d⟩
    cases d with
    | nil => exact hs rfl
    | cons c cs =>
      have : (safe_text ⟨c :: cs⟩).data = [] := by rw [hc]
      simp only [safe_text, List.map_cons, List.flatten_cons] at this
      split_ifs at this <;> simp at this
  have hbase := simplified_records_text_ne_empty filter_bots url_mode messages
  unfold simplify_out at h
  by_cases hcons : consolidate
  · rw [if_pos hcons] at h
    intro r hr
    have := consolidate_text_ne_empty _ out time_window max_length hbase h r hr
    exact ⟨this, hsafe _ this⟩
  · rw [if_neg hcons] at h
    simp only [Option.some.injEq] at h
    subst h
    intro r hr
    exact ⟨hbase r hr, hsafe _ (hbase r hr)⟩

def wRaw : RawMsg :=
  ⟨"message", "1", "100", "Al", "u1", TextField.str "hello there"⟩

def wRecord : Msg := ⟨"1", "100", "Al", "u1", "hello there"⟩

theorem simplifier_no_empty_text_witness :
    wRecord.text ≠ "" ∧ safe_text wRecord.text ≠ "" := by
  have h : simplify_out true UrlMode.domain true 180 300 [wRaw] =
      some [wRecord] := by decide
  exact simplifier_no_empty_text true UrlMode.domain true 180 300 [wRaw]
    [wRecord] h wRecord (List.mem_singleton.mpr rfl)

end Telegram
